import Mathlib

/-!
Verification of the Double Shutter enumeration engine
(`simple-possibilities.py`).

The program models a "Shut the Box"-style game with 12 tiles, each of which
can be flipped twice (front, then back).  `GameState.get_next_states`
enumerates, by depth-first backtracking, the successor states for one dice
roll, and `find_all_games` recursively counts winning and losing complete
play-throughs over all 36 ordered two-dice outcomes.

The embedding below mirrors the Python source.  Tile rows are total maps
`Fin 12 → Bool`.  The Python helper `recur_helper` recurses on a budget that
shrinks by at least 1 per call, so it is embedded with an explicit fuel
argument that starts at the roll value; fuel exhaustion is unreachable
whenever `fuel ≥ rollRemaining` (proved in `recur_helper_fuel_irrel`).
-/

set_option maxRecDepth 100000

/-- One board configuration: which tiles are flipped in the front row and in
the back row.  Mirrors `GameState._front_row` / `GameState._back_row`. -/
structure GameState where
  front : Fin 12 → Bool
  back : Fin 12 → Bool

instance : DecidableEq GameState :=
  fun a b =>
    decidable_of_iff (a.front = b.front ∧ a.back = b.back) (by
      cases a; cases b; simp)

/-- The canonical initial state: all 24 flags false (`GameState.__init__`). -/
def GameState.init : GameState := ⟨fun _ => false, fun _ => false⟩

/-- The state update performed inside the loop of `recur_helper`: the flip
availability is read from `self` (the receiver of `get_next_states`), while
the flag is written into a copy of the path-local `state`, exactly as the
Python code does (`if front_flipped: new_state._back_row[val-1] = True
else: new_state._front_row[val-1] = True`). -/
def flipTile (self state : GameState) (i : Fin 12) : GameState :=
  if self.front i then ⟨state.front, Function.update state.back i true⟩
  else ⟨Function.update state.front i true, state.back⟩

/-- The nested `recur_helper` of `GameState.get_next_states`.  `fuel` only
bounds the recursion depth (each recursive call lowers the budget by at
least 1, so `fuel = roll` at the top level always suffices); the `0, _+1`
arm is unreachable from `get_next_states`.  The loop runs over tile values
`val = i+1` for `i` in `0..11`, reading the flip flags from `self`,
skipping fully consumed tiles, and recursing when `val ≤ roll_remaining`. -/
def recur_helper (self : GameState) : Nat → Nat → GameState → List GameState
  | _, 0, state => [state]
  | 0, _ + 1, _ => []
  | fuel + 1, r + 1, state =>
    (List.finRange 12).flatMap fun i =>
      if self.front i && self.back i then []
      else if (i : Nat) + 1 ≤ r + 1 then
        recur_helper self fuel (r + 1 - ((i : Nat) + 1)) (flipTile self state i)
      else []

/-- `GameState.get_next_states`: all successor states recorded by the
backtracking enumeration for one roll total. -/
def GameState.get_next_states (self : GameState) (roll : Nat) : List GameState :=
  recur_helper self roll roll self

/-- `GameState.is_won`: all tiles flipped in both rows. -/
def GameState.is_won (s : GameState) : Bool :=
  ((List.finRange 12).all fun i => s.front i) &&
    ((List.finRange 12).all fun i => s.back i)

/-- `dice_rolls`: the 36 sums `a + b` for the ordered outcomes of two
six-sided dice (`itertools.product(range(1, 7), range(1, 7))`). -/
def dice_rolls : List Nat :=
  (List.range 6).flatMap fun a => (List.range 6).map fun b => (a + 1) + (b + 1)

/-- The 36 ordered two-dice outcomes themselves, used to state that
`dice_rolls` iterates the full Cartesian product and not the 11 sums. -/
def dicePairs : List (Nat × Nat) :=
  (List.range 6).flatMap fun a => (List.range 6).map fun b => (a + 1, b + 1)

/-- `AllGamesResult`: counts of winning and losing complete games. -/
structure AllGamesResult where
  num_won : Nat := 0
  num_lost : Nat := 0
deriving DecidableEq

/-- `AllGamesResult.__add__`: element-wise addition of the two counters. -/
instance : Add AllGamesResult :=
  ⟨fun a b => ⟨a.num_won + b.num_won, a.num_lost + b.num_lost⟩⟩

/-- Folding `result += x` over a list, starting from `AllGamesResult(0, 0)`. -/
def resSum (l : List AllGamesResult) : AllGamesResult :=
  l.foldl (· + ·) ⟨0, 0⟩

/-- `find_all_games`, with an explicit fuel bounding the recursion depth.
Each successor strictly increases the number of set flags (at most 24), so
fuel 25 always suffices (`find_all_games_fuel_irrel`).  For a non-won state
it folds, over the 36 dice outcomes, `(0, 1)` when the expansion is empty
and otherwise the recursive counts of every successor. -/
def find_all_games_fuel : Nat → GameState → AllGamesResult
  | 0, _ => ⟨0, 0⟩
  | fuel + 1, state =>
    if state.is_won then ⟨1, 0⟩
    else
      resSum (dice_rolls.map fun roll =>
        if (state.get_next_states roll).isEmpty then ⟨0, 1⟩
        else resSum ((state.get_next_states roll).map (find_all_games_fuel fuel)))

/-- `find_all_games`: fuel 25 is always enough (see
`find_all_games_fuel_irrel`), so this is the total recursive function of the
source. -/
def find_all_games (state : GameState) : AllGamesResult :=
  find_all_games_fuel 25 state

/-- Instrumented copy of `recur_helper` that also records, for every
recorded successor, the sequence of tile values selected along the
enumeration path that produced it.  Identical to `recur_helper` except for
the extra `path` accumulator (see `recur_trace_map_snd`). -/
def recur_trace (self : GameState) :
    Nat → Nat → GameState → List Nat → List (List Nat × GameState)
  | _, 0, state, path => [(path, state)]
  | 0, _ + 1, _, _ => []
  | fuel + 1, r + 1, state, path =>
    (List.finRange 12).flatMap fun i =>
      if self.front i && self.back i then []
      else if (i : Nat) + 1 ≤ r + 1 then
        recur_trace self fuel (r + 1 - ((i : Nat) + 1)) (flipTile self state i)
          (path ++ [(i : Nat) + 1])
      else []

/-- The recorded (selection path, successor) pairs of one expansion. -/
def expansion_paths (self : GameState) (roll : Nat) : List (List Nat × GameState) :=
  recur_trace self roll roll self []

/-- The state whose front row is set exactly at the given indices and whose
back row is empty; convenient concrete test states. -/
def onlyFront (l : List (Fin 12)) : GameState :=
  ⟨fun i => decide (i ∈ l), fun _ => false⟩

/-- The fully flipped (won) state. -/
def allFlipped : GameState := ⟨fun _ => true, fun _ => true⟩

/-- Total number of set flags of a state (at most 24). -/
def numFlipped (s : GameState) : Nat :=
  (Finset.univ.filter fun i => s.front i = true).card +
    (Finset.univ.filter fun i => s.back i = true).card

/-- `a`'s flags are a subset of `b`'s flags. -/
def subState (a b : GameState) : Prop :=
  (∀ i, a.front i = true → b.front i = true) ∧
    (∀ i, a.back i = true → b.back i = true)

instance (a b : GameState) : Decidable (subState a b) := by
  unfold subState; infer_instance

/-- The documented invariant of `_back_row`: a tile flipped in back must
also be flipped in front. -/
def backInv (s : GameState) : Prop :=
  ∀ i, s.back i = true → s.front i = true

instance (s : GameState) : Decidable (backInv s) := by
  unfold backInv; infer_instance

theorem subState_refl (a : GameState) : subState a a :=
  ⟨fun _ h => h, fun _ h => h⟩

theorem subState_trans {a b c : GameState} (h1 : subState a b) (h2 : subState b c) :
    subState a c :=
  ⟨fun i h => h2.1 i (h1.1 i h), fun i h => h2.2 i (h1.2 i h)⟩

theorem flipTile_subState (self state : GameState) (i : Fin 12) :
    subState state (flipTile self state i) := by
  unfold flipTile
  split
  · refine ⟨fun j h => h, fun j h => ?_⟩
    simp only [Function.update_apply]
    split <;> simp [h]
  · refine ⟨fun j h => ?_, fun j h => h⟩
    simp only [Function.update_apply]
    split <;> simp [h]

theorem recur_helper_subState (self : GameState) :
    ∀ (fuel r : Nat) (state t : GameState),
      t ∈ recur_helper self fuel r state → subState state t := by
  intro fuel
  induction fuel with
  | zero =>
    intro r state t ht
    match r with
    | 0 =>
      simp only [recur_helper, List.mem_singleton] at ht
      exact ht ▸ subState_refl state
    | r + 1 => simp [recur_helper] at ht
  | succ fuel ih =>
    intro r state t ht
    match r with
    | 0 =>
      simp only [recur_helper, List.mem_singleton] at ht
      exact ht ▸ subState_refl state
    | r + 1 =>
      simp only [recur_helper, List.mem_flatMap] at ht
      obtain ⟨i, hi, ht⟩ := ht
      by_cases hc : (self.front i && self.back i) = true
      · rw [if_pos hc] at ht
        simp at ht
      · rw [if_neg hc] at ht
        by_cases hle : (i : Nat) + 1 ≤ r + 1
        · rw [if_pos hle] at ht
          exact subState_trans (flipTile_subState self state i) (ih _ _ _ ht)
        · rw [if_neg hle] at ht
          simp at ht

theorem recur_helper_fuel_irrel (self : GameState) :
    ∀ (f g r : Nat) (state : GameState), r ≤ f → r ≤ g →
      recur_helper self f r state = recur_helper self g r state := by
  intro f
  induction f with
  | zero =>
    intro g r state hf hg
    have hr : r = 0 := Nat.le_zero.mp hf
    subst hr
    simp [recur_helper]
  | succ f ih =>
    intro g r state hf hg
    match r with
    | 0 => simp [recur_helper]
    | r + 1 =>
      match g with
      | g + 1 =>
        simp only [recur_helper]
        congr 1
        funext i
        by_cases hc : (self.front i && self.back i) = true
        · rw [if_pos hc, if_pos hc]
        · rw [if_neg hc, if_neg hc]
          by_cases hle : (i : Nat) + 1 ≤ r + 1
          · rw [if_pos hle, if_pos hle]
            exact ih g (r + 1 - ((i : Nat) + 1)) (flipTile self state i)
              (by omega) (by omega)
          · rw [if_neg hle, if_neg hle]

theorem numFlipped_mono {a b : GameState} (h : subState a b) :
    numFlipped a ≤ numFlipped b := by
  unfold numFlipped
  refine Nat.add_le_add (Finset.card_le_card ?_) (Finset.card_le_card ?_)
  · intro i hi
    simp only [Finset.mem_filter, Finset.mem_univ, true_and] at hi ⊢
    exact h.1 i hi
  · intro i hi
    simp only [Finset.mem_filter, Finset.mem_univ, true_and] at hi ⊢
    exact h.2 i hi

theorem numFlipped_le (s : GameState) : numFlipped s ≤ 24 := by
  unfold numFlipped
  have h1 := Finset.card_filter_le (Finset.univ : Finset (Fin 12))
    (fun i => s.front i = true)
  have h2 := Finset.card_filter_le (Finset.univ : Finset (Fin 12))
    (fun i => s.back i = true)
  simp only [Finset.card_univ, Fintype.card_fin] at h1 h2
  omega

theorem filter_update_card (f : Fin 12 → Bool) (i : Fin 12) (h : f i = false) :
    (Finset.univ.filter fun j => Function.update f i true j = true).card =
      (Finset.univ.filter fun j => f j = true).card + 1 := by
  have he : (Finset.univ.filter fun j => Function.update f i true j = true) =
      insert i (Finset.univ.filter fun j => f j = true) := by
    ext j
    simp only [Finset.mem_filter, Finset.mem_univ, true_and, Finset.mem_insert,
      Function.update_apply]
    by_cases hj : j = i <;> simp [hj]
  rw [he, Finset.card_insert_of_not_mem]
  simp [h]

theorem numFlipped_flipTile_self (s : GameState) (i : Fin 12)
    (h : ¬(s.front i = true ∧ s.back i = true)) :
    numFlipped (flipTile s s i) = numFlipped s + 1 := by
  unfold flipTile numFlipped
  by_cases hf : s.front i = true
  · have hb : s.back i = false := by
      cases hback : s.back i
      · rfl
      · exact absurd ⟨hf, hback⟩ h
    rw [if_pos hf]
    simp only
    rw [filter_update_card s.back i hb]
    omega
  · have hf' : s.front i = false := Bool.not_eq_true _ ▸ hf
    rw [if_neg hf]
    simp only
    rw [filter_update_card s.front i hf']
    omega

theorem get_next_states_flips_lt {s t : GameState} {r : Nat} (hr : 1 ≤ r)
    (ht : t ∈ s.get_next_states r) : numFlipped s < numFlipped t := by
  unfold GameState.get_next_states at ht
  match r, hr with
  | r + 1, _ =>
    simp only [recur_helper, List.mem_flatMap] at ht
    obtain ⟨i, hi, ht⟩ := ht
    by_cases hc : (s.front i && s.back i) = true
    · rw [if_pos hc] at ht
      simp at ht
    · rw [if_neg hc] at ht
      by_cases hle : (i : Nat) + 1 ≤ r + 1
      · rw [if_pos hle] at ht
        have h1 := numFlipped_mono (recur_helper_subState s _ _ _ _ ht)
        have h2 : numFlipped (flipTile s s i) = numFlipped s + 1 := by
          refine numFlipped_flipTile_self s i fun hcon => hc ?_
          simp [hcon.1, hcon.2]
        omega
      · rw [if_neg hle] at ht
        simp at ht

theorem flipTile_backInv {self state : GameState} (i : Fin 12)
    (hbi : backInv state) (hfs : ∀ j, self.front j = true → state.front j = true) :
    backInv (flipTile self state i) := by
  unfold flipTile
  by_cases hf : self.front i = true
  · rw [if_pos hf]
    intro j hj
    simp only [Function.update_apply] at hj
    by_cases hji : j = i
    · subst hji
      exact hfs j hf
    · rw [if_neg hji] at hj
      exact hbi j hj
  · rw [if_neg hf]
    intro j hj
    simp only [Function.update_apply]
    by_cases hji : j = i
    · simp [hji]
    · rw [if_neg hji]
      exact hbi j hj

theorem flipTile_frontSub {self state : GameState} (i : Fin 12)
    (hfs : ∀ j, self.front j = true → state.front j = true) :
    ∀ j, self.front j = true → (flipTile self state i).front j = true := by
  unfold flipTile
  by_cases hf : self.front i = true
  · rw [if_pos hf]
    exact hfs
  · rw [if_neg hf]
    intro j hj
    simp only [Function.update_apply]
    by_cases hji : j = i
    · simp [hji]
    · rw [if_neg hji]
      exact hfs j hj

theorem recur_helper_backInv (self : GameState) :
    ∀ (fuel r : Nat) (state t : GameState),
      backInv state → (∀ j, self.front j = true → state.front j = true) →
      t ∈ recur_helper self fuel r state → backInv t := by
  intro fuel
  induction fuel with
  | zero =>
    intro r state t hbi hfs ht
    match r with
    | 0 =>
      simp only [recur_helper, List.mem_singleton] at ht
      exact ht ▸ hbi
    | r + 1 => simp [recur_helper] at ht
  | succ fuel ih =>
    intro r state t hbi hfs ht
    match r with
    | 0 =>
      simp only [recur_helper, List.mem_singleton] at ht
      exact ht ▸ hbi
    | r + 1 =>
      simp only [recur_helper, List.mem_flatMap] at ht
      obtain ⟨i, hi, ht⟩ := ht
      by_cases hc : (self.front i && self.back i) = true
      · rw [if_pos hc] at ht
        simp at ht
      · rw [if_neg hc] at ht
        by_cases hle : (i : Nat) + 1 ≤ r + 1
        · rw [if_pos hle] at ht
          exact ih _ _ _ (flipTile_backInv i hbi hfs) (flipTile_frontSub i hfs) ht
        · rw [if_neg hle] at ht
          simp at ht

theorem recur_trace_map_snd (self : GameState) :
    ∀ (fuel r : Nat) (state : GameState) (path : List Nat),
      (recur_trace self fuel r state path).map Prod.snd =
        recur_helper self fuel r state := by
  intro fuel
  induction fuel with
  | zero =>
    intro r state path
    match r with
    | 0 => simp [recur_trace, recur_helper]
    | r + 1 => simp [recur_trace, recur_helper]
  | succ fuel ih =>
    intro r state path
    match r with
    | 0 => simp [recur_trace, recur_helper]
    | r + 1 =>
      simp only [recur_trace, recur_helper]
      rw [List.map_flatMap]
      congr 1
      funext i
      by_cases hc : (self.front i && self.back i) = true
      · rw [if_pos hc, if_pos hc]
        rfl
      · rw [if_neg hc, if_neg hc]
        by_cases hle : (i : Nat) + 1 ≤ r + 1
        · rw [if_pos hle, if_pos hle]
          exact ih _ _ _
        · rw [if_neg hle, if_neg hle]
          rfl

theorem dice_rolls_pos : ∀ r ∈ dice_rolls, 1 ≤ r := by decide

theorem find_all_games_fuel_irrel :
    ∀ (f g : Nat) (s : GameState), 25 - numFlipped s ≤ f → 25 - numFlipped s ≤ g →
      find_all_games_fuel f s = find_all_games_fuel g s := by
  intro f
  induction f with
  | zero =>
    intro g s hf hg
    exact absurd hf (by have := numFlipped_le s; omega)
  | succ f ih =>
    intro g s hf hg
    match g with
    | 0 => exact absurd hg (by have := numFlipped_le s; omega)
    | g + 1 =>
      simp only [find_all_games_fuel]
      by_cases hw : s.is_won = true
      · rw [if_pos hw, if_pos hw]
      · rw [if_neg hw, if_neg hw]
        congr 1
        apply List.map_congr_left
        intro roll hroll
        by_cases he : (s.get_next_states roll).isEmpty = true
        · rw [if_pos he, if_pos he]
        · rw [if_neg he, if_neg he]
          congr 1
          apply List.map_congr_left
          intro t ht
          have h1 := get_next_states_flips_lt (dice_rolls_pos roll hroll) ht
          have h2 := numFlipped_le t
          exact ih g t (by omega) (by omega)

theorem find_all_games_fuel_succ (fuel : Nat) (state : GameState) :
    find_all_games_fuel (fuel + 1) state =
      if state.is_won then ⟨1, 0⟩
      else
        resSum (dice_rolls.map fun roll =>
          if (state.get_next_states roll).isEmpty then ⟨0, 1⟩
          else
            resSum ((state.get_next_states roll).map (find_all_games_fuel fuel))) :=
  rfl

theorem find_all_games_eq (s : GameState) :
    find_all_games s =
      if s.is_won then ⟨1, 0⟩
      else
        resSum (dice_rolls.map fun roll =>
          if (s.get_next_states roll).isEmpty then ⟨0, 1⟩
          else resSum ((s.get_next_states roll).map find_all_games)) := by
  have h25 : (25 : Nat) = 24 + 1 := rfl
  rw [find_all_games, h25, find_all_games_fuel_succ]
  by_cases hw : s.is_won = true
  · rw [if_pos hw, if_pos hw]
  · rw [if_neg hw, if_neg hw]
    refine congrArg resSum (List.map_congr_left fun roll hroll => ?_)
    by_cases he : (s.get_next_states roll).isEmpty = true
    · rw [if_pos he, if_pos he]
    · rw [if_neg he, if_neg he]
      refine congrArg resSum (List.map_congr_left fun t ht => ?_)
      have h1 := get_next_states_flips_lt (dice_rolls_pos roll hroll) ht
      have h2 := numFlipped_le t
      rw [find_all_games]
      exact find_all_games_fuel_irrel 24 25 t (by omega) (by omega)

theorem AllGamesResult.add_def (a b : AllGamesResult) :
    a + b = ⟨a.num_won + b.num_won, a.num_lost + b.num_lost⟩ := rfl

/-- C1: the claim states that within one expansion path a first selection of
a tile flips its front flag, a second selection flips its back flag, and no
path selects a tile beyond its two flip transitions.  The code fails this:
availability is read from the original receiver `self` rather than from the
path-local state, so from the initial state with roll 3 the enumeration
records a path selecting tile 1 three times, and the recorded successor has
tile 1's back flag still false (every selection re-set the front flag). -/
theorem selection_path_reuses_tile_beyond_two_flips :
    ([1, 1, 1], onlyFront [0]) ∈ expansion_paths GameState.init 3 ∧
      (onlyFront [0]).front 0 = true ∧ (onlyFront [0]).back 0 = false := by
  refine ⟨by decide, by decide, by decide⟩

/-- C2: the claim states that the backtracking proceeds over tile values in
increasing order along each path, so no two recorded selection paths flip
the same multiset of tile values.  The code restarts the loop at tile value
1 on every recursive call, so from the initial state with roll 3 it records
both the path `[1, 2]` and the path `[2, 1]` — two distinct recorded paths
flipping the same multiset of values (and even the same resulting state). -/
theorem duplicate_multiset_paths_recorded :
    ([1, 2], onlyFront [0, 1]) ∈ expansion_paths GameState.init 3 ∧
      ([2, 1], onlyFront [0, 1]) ∈ expansion_paths GameState.init 3 ∧
      ([1, 2] : List Nat) ≠ [2, 1] ∧
      (([1, 2] : List Nat) : Multiset Nat) = (([2, 1] : List Nat) : Multiset Nat) := by
  refine ⟨by decide, by decide, by decide, by decide⟩

/-- C3, counterexample: `expand(initial_state, 13)` is claimed to return an
empty set, but the code returns a non-empty list of successors. -/
theorem expand_initial_thirteen_nonempty : GameState.init.get_next_states 13 ≠ [] := by
  decide

/-- C3 (amended): `expand` applied to the canonical initial BoardState with
roll total 13 returns a non-empty set of successor states; in particular the
state with only tile 1 front-flipped is recorded (reached by repeatedly
selecting tile 1 until the budget is spent). -/
theorem expand_initial_thirteen_members :
    onlyFront [0] ∈ GameState.init.get_next_states 13 := by
  decide

/-- C4: for every non-won state, `find_all_games` iterates exactly the 36
ordered two-dice outcomes (the full Cartesian product of two dice, not the
11 distinct sums), adds one loss for each outcome whose expansion is empty,
and otherwise adds the recursive result of every returned successor. -/
theorem find_all_games_iterates_36_outcomes (s : GameState) (h : s.is_won = false) :
    dicePairs.length = 36 ∧
      dicePairs.Nodup ∧
      (∀ a b : Nat, (a, b) ∈ dicePairs ↔ 1 ≤ a ∧ a ≤ 6 ∧ 1 ≤ b ∧ b ≤ 6) ∧
      dice_rolls = dicePairs.map (fun p => p.1 + p.2) ∧
      find_all_games s =
        resSum (dice_rolls.map fun roll =>
          if (s.get_next_states roll).isEmpty then ⟨0, 1⟩
          else resSum ((s.get_next_states roll).map find_all_games)) := by
  refine ⟨by decide, by decide, ?_, by decide, ?_⟩
  · intro a b
    simp only [dicePairs, List.mem_flatMap, List.mem_map, List.mem_range,
      Prod.mk.injEq]
    constructor
    · rintro ⟨x, hx, y, hy, h1, h2⟩
      omega
    · rintro ⟨h1, h2, h3, h4⟩
      exact ⟨a - 1, by omega, b - 1, by omega, by omega, by omega⟩
  · rw [find_all_games_eq, if_neg (by simp [h])]

/-- C4 witness at the (non-won) initial state. -/
theorem find_all_games_iterates_36_outcomes_witness :
    GameState.init.is_won = false ∧
      find_all_games GameState.init =
        resSum (dice_rolls.map fun roll =>
          if (GameState.init.get_next_states roll).isEmpty then ⟨0, 1⟩
          else resSum ((GameState.init.get_next_states roll).map find_all_games)) :=
  ⟨by decide, (find_all_games_iterates_36_outcomes GameState.init (by decide)).2.2.2.2⟩

/-- C5: every successor of a state satisfying the front-before-back
invariant satisfies it as well: the expansion never sets a back flag whose
front flag is false. -/
theorem expansion_preserves_backInv {s t : GameState} {r : Nat} (hs : backInv s)
    (ht : t ∈ s.get_next_states r) : backInv t :=
  recur_helper_backInv s r r s t hs (fun _ h => h) ht

/-- C5 witness: the initial state, roll 1 and its unique successor. -/
theorem expansion_preserves_backInv_witness :
    backInv GameState.init ∧ onlyFront [0] ∈ GameState.init.get_next_states 1 ∧
      backInv (onlyFront [0]) :=
  ⟨by decide, by decide,
    @expansion_preserves_backInv GameState.init (onlyFront [0]) 1 (by decide)
      (by decide)⟩

/-- C6: flips are monotonic — every successor's front and back flags are a
superset of the original state's flags. -/
theorem expansion_monotone {s t : GameState} {r : Nat}
    (ht : t ∈ s.get_next_states r) : subState s t :=
  recur_helper_subState s r r s t ht

/-- C6 witness: the initial state, roll 2 and the successor flipping tile 2. -/
theorem expansion_monotone_witness :
    onlyFront [1] ∈ GameState.init.get_next_states 2 ∧
      subState GameState.init (onlyFront [1]) :=
  ⟨by decide, @expansion_monotone GameState.init (onlyFront [1]) 2 (by decide)⟩

/-- C7: termination of `find_all_games` — every recursive call strictly
decreases the remaining work `24 - numFlipped` (there are at most 24 flip
transitions in total), so the search tree from any state is finite: any
fuel of at least `25 - numFlipped s` computes the fixed value
`find_all_games s`. -/
theorem find_all_games_terminates {s t : GameState} {r f : Nat}
    (hr : r ∈ dice_rolls) (ht : t ∈ s.get_next_states r)
    (hf : 25 - numFlipped s ≤ f) :
    numFlipped s < numFlipped t ∧ numFlipped t ≤ 24 ∧
      24 - numFlipped t < 24 - numFlipped s ∧
      find_all_games_fuel f s = find_all_games s := by
  have h1 := get_next_states_flips_lt (dice_rolls_pos r hr) ht
  have h2 := numFlipped_le t
  have h3 := numFlipped_le s
  refine ⟨h1, h2, by omega, ?_⟩
  rw [find_all_games]
  exact find_all_games_fuel_irrel f 25 s hf (by omega)

/-- C7 witness at the canonical initial state with roll 2. -/
theorem find_all_games_terminates_witness :
    2 ∈ dice_rolls ∧ onlyFront [0] ∈ GameState.init.get_next_states 2 ∧
      24 - numFlipped (onlyFront [0]) < 24 - numFlipped GameState.init ∧
      find_all_games_fuel 25 GameState.init = find_all_games GameState.init := by
  have h := @find_all_games_terminates GameState.init (onlyFront [0]) 2 25
    (by decide) (by decide) (by decide)
  exact ⟨by decide, by decide, h.2.2.1, h.2.2.2⟩

/-- C8: for every won state (all 24 flags true), `find_all_games` returns
exactly one win and zero losses, without exploring any rolls. -/
theorem find_all_games_won (s : GameState) (h : s.is_won = true) :
    find_all_games s = ⟨1, 0⟩ := by
  rw [find_all_games_eq, if_pos h]

/-- C8 witness at the fully flipped state. -/
theorem find_all_games_won_witness :
    allFlipped.is_won = true ∧ find_all_games allFlipped = ⟨1, 0⟩ :=
  ⟨by decide, find_all_games_won allFlipped (by decide)⟩

/-- C9: `AllGamesResult` addition is associative and commutative, and
`(0, 0)` is a two-sided identity. -/
theorem allGamesResult_add_comm_monoid (a b c : AllGamesResult) :
    (a + b) + c = a + (b + c) ∧ a + b = b + a ∧
      a + (⟨0, 0⟩ : AllGamesResult) = a ∧ (⟨0, 0⟩ : AllGamesResult) + a = a := by
  obtain ⟨aw, al⟩ := a
  obtain ⟨bw, bl⟩ := b
  obtain ⟨cw, cl⟩ := c
  refine ⟨?_, ?_, ?_, ?_⟩ <;>
    · simp only [AllGamesResult.add_def, AllGamesResult.mk.injEq]
      omega

/-- C10: `expand(state, 0)` records the unchanged state itself as the single
successor: a zero roll budget is immediately recorded as valid rather than
rejected. -/
theorem expand_zero_returns_self (s : GameState) : s.get_next_states 0 = [s] := rfl
